import Mathlib

/-!
Verification of the moody-mapper face-transition mapping compiler and
bitmap packer, shallowly embedded from the repository sources:

* `src/composables/mapping.ts` — the current (Vue/JointJS) compiler;
* `src/js/mapper.js`           — the legacy (GoJS) compiler and export handler;
* the GoJS `LinkDrawn` diagram listener (bidirectional link folding);
* `src/components/TheEditor.vue` — the editor's image thresholding.

Strings are modelled with Lean `String`; JavaScript's default string
comparison (code-unit lexicographic) and `toUpperCase` are modelled by
structural functions on the underlying character lists so that every
definition evaluates by kernel reduction.  JavaScript objects used as
string- or integer-keyed dictionaries are modelled as insertion-ordered
association lists.  Thrown `TypeError`s and rejected promises are
modelled with `Except`.
-/

namespace MoodyMapper

/-- Lexicographic comparison of character lists, modelling the default
JavaScript string comparison used by `Array.prototype.sort`. -/
def charListLe : List Char → List Char → Bool
  | [], _ => true
  | _ :: _, [] => false
  | a :: as, b :: bs =>
    if a < b then true
    else if b < a then false
    else charListLe as bs

/-- The string order used by JavaScript's default sort, as a proposition. -/
def stringLe (a b : String) : Prop := charListLe a.data b.data = true

instance : DecidableRel stringLe := fun a b =>
  inferInstanceAs (Decidable (charListLe a.data b.data = true))

/-- Model of JavaScript `String.prototype.toUpperCase` (character-wise
uppercasing; agrees with it on ASCII data). -/
def toUpperJS (s : String) : String := String.mk (s.data.map Char.toUpper)

/-- Model of JavaScript `Array.prototype.sort()` on string arrays:
a stable sort by the default lexicographic string order. -/
def sortJS (l : List String) : List String := List.insertionSort stringLe l

/-- A face: a named bitmap entity with its animation-layer image sources
(`faces` store / `facesArray`). -/
structure Face where
  name : String
  images : List String
deriving Repr, DecidableEq

/-- A cell of the JointJS `graphConfig`.  Element cells carry a `name`;
link cells have `type = "standard.Link"` and endpoint ids `source.id` /
`target.id` (flattened here to `sourceId` / `targetId`).  Link cells also
carry the `isBiDirectional` flag of the data model; note that
`generateMappings` in `mapping.ts` never reads it. -/
structure Cell where
  id : String
  type : String
  name : String
  sourceId : String
  targetId : String
  isBiDirectional : Bool
deriving Repr, DecidableEq

/-- A JavaScript object used as a string-keyed dictionary of out-lists,
in insertion order. -/
abbrev Mappings := List (String × List String)

/-- Dictionary lookup, `mappings[key]` (`undefined` becomes `none`). -/
def lookupJS (m : Mappings) (key : String) : Option (List String) :=
  (m.find? (fun p => p.1 == key)).map Prod.snd

/-- The out-list stored for `key`, with `undefined` read as the empty
list (for stating lengths and membership). -/
def listOf (m : Mappings) (key : String) : List String :=
  (lookupJS m key).getD []

/-- `getElementNameById` of `mapping.ts`: find the cell with the given id
and read its `name`.  In the source an absent cell makes the subsequent
`.name` access throw; here the failure is surfaced as `none`. -/
def getElementNameById (cells : List Cell) (id : String) : Option String :=
  (cells.find? (fun cell => cell.id == id)).map Cell.name

/-- `addMapping` of `mapping.ts`: create the key's array if absent, then
push the uppercased target name. -/
def addMapping (map : Mappings) (face target : String) : Mappings :=
  if map.any (fun p => p.1 == face) then
    map.map (fun p => if p.1 == face then (p.1, p.2 ++ [toUpperJS target]) else p)
  else
    map ++ [(face, [toUpperJS target])]

/-- The body of the `forEach` over link cells in `generateMappings` of
`mapping.ts`: resolve both endpoint names (throwing — `Except.error` —
when an id has no cell), drop the link when the target name is not the
name of a loaded face (or is empty, which is falsy in JavaScript), and
otherwise record the uppercased target under the source name. -/
def generateMappingsStep (cells : List Cell) (faces : List Face)
    (mappings : Mappings) (link : Cell) : Except String Mappings :=
  match getElementNameById cells link.sourceId,
        getElementNameById cells link.targetId with
  | some fromName, some toName =>
    match (faces.find? (fun face => face.name == toName)).map Face.name with
    | some target =>
      if target == "" then Except.ok mappings
      else Except.ok (addMapping mappings fromName target)
    | none => Except.ok mappings
  | _, _ => Except.error "TypeError: cannot read name of undefined"

/-- `generateMappings` of `mapping.ts`: fold the step over all cells of
type `"standard.Link"`, starting from the empty dictionary. -/
def generateMappings (cells : List Cell) (faces : List Face) :
    Except String Mappings :=
  (cells.filter (fun cell => cell.type == "standard.Link")).foldlM
    (generateMappingsStep cells faces) []

/-- `getMaxLinks` of `mapping.ts`: reduce `Math.max` over the lengths of
all stored out-lists, starting from `0`. -/
def getMaxLinks (mappings : Mappings) : Nat :=
  mappings.foldl (fun acc cur => Nat.max acc cur.2.length) 0

/-- The `fullMappings` dictionary built by `generateFileMappings` of
`mapping.ts`: each stored out-list is sorted and right-padded with the
sentinel `"INVALID_FACE"` up to length `max`. -/
def fullMappingsOf (mappings : Mappings) (max : Nat) : Mappings :=
  mappings.map (fun p =>
    (p.1, sortJS p.2 ++ List.replicate (max - p.2.length) "INVALID_FACE"))

/-- The rows emitted by `generateFileMappings` of `mapping.ts`, one per
face in face-list order: the face's padded out-list, or an all-sentinel
row when the face has no entry. -/
def generateFileRows (mappings : Mappings) (max : Nat) (faces : List Face) :
    List (List String) :=
  faces.map (fun face =>
    match lookupJS (fullMappingsOf mappings max) face.name with
    | some row => row
    | none => List.replicate max "INVALID_FACE")

/-- The string built by `generateFileMappings` of `mapping.ts` from the
rows: `  {tokens},` with a trailing comment naming the face. -/
def generateFileMappings (mappings : Mappings) (max : Nat)
    (faces : List Face) : String :=
  String.join (((generateFileRows mappings max faces).zip faces).enum.map
    (fun p =>
      "  \x7b" ++ String.intercalate ", " p.2.1 ++ "\x7d" ++
        (if p.1 != faces.length - 1 then "," else "") ++
        " //" ++ toUpperJS p.2.2.name ++ "\n"))

/-- `generateDefines` of `mapping.ts`: one `#define` per face, joined by
newlines. -/
def generateDefines (faces : List Face) : String :=
  String.intercalate "\n" (faces.enum.map
    (fun p => "#define " ++ toUpperJS p.2.name ++ " " ++ toString p.1))

/-- `generateConfigFile` of `mapping.ts`: the full emitted header text. -/
def generateConfigFile (cells : List Cell) (faces : List Face) :
    Except String String := do
  let mappings ← generateMappings cells faces
  let maxLinks := getMaxLinks mappings
  let fileMappings := generateFileMappings mappings maxLinks faces
  Except.ok ("#define NUMBER_FACES " ++ toString faces.length ++
    "\n#define INVALID_FACE -1\n" ++ generateDefines faces ++ "\n\n" ++
    "const int8_t nextFaces[][" ++ toString maxLinks ++ "] = \x7b\n" ++
    fileMappings ++ "\x7d;\n")

/-- The inline sample conversion `(val ? 0 : 1)` of `generateBinaryStrings`
in `mapping.ts`: a red-channel sample is mapped to bit `1` exactly when it
is `0` (falsy); any nonzero sample gives bit `0`. -/
def sampleBit (val : Nat) : Nat := if val == 0 then 1 else 0

/-- The `redChannelData` computation of `generateBinaryStrings`:
`Array.from(pixelData, (_, i) => pixelData[i * 4])` (out-of-range reads
are `undefined`), filtered of `undefined`, then converted by `sampleBit`. -/
def redChannelData (pixelData : List Nat) : List Nat :=
  ((((List.range pixelData.length).map (fun i => pixelData[i * 4]?)).filterMap
    id).map sampleBit)

/-- The chunking loop of `generateBinaryStrings`: successive slices of
(at most) 8 samples. -/
def chunksOf8 : List Nat → List (List Nat)
  | [] => []
  | a :: b :: c :: d :: e :: f :: g :: h :: rest =>
    [a, b, c, d, e, f, g, h] :: chunksOf8 rest
  | l => [l]

/-- Rendering one chunk as a binary literal: `` `0b${slice.join("")}` ``. -/
def toBinaryLiteral (slice : List Nat) : String :=
  "0b" ++ String.join (slice.map (fun b => toString b))

/-- `generateBinaryStrings` of `mapping.ts`: the list of binary literals
packed from an RGBA pixel buffer. -/
def generateBinaryStrings (pixelData : List Nat) : List String :=
  (chunksOf8 (redChannelData pixelData)).map toBinaryLiteral

/-- `loadImage` of `mapping.ts`: resolves with the image, rejects with
`"Failed to load image: " + src` when decoding fails.  The environment
`decode` abstracts the browser's image decoding combined with
`drawImage`/`getImageData`: it yields the RGBA byte buffer read back from
the 32×16 canvas for a source URL, or `none` when the image fails to
load. -/
def loadImage (decode : String → Option (List Nat)) (src : String) :
    Except String (List Nat) :=
  match decode src with
  | some img => Except.ok img
  | none => Except.error ("Failed to load image: " ++ src)

/-- The inner layer loop of `generateArduinoFaces`: await each image of
the face, pack its pixels, and collect `{...literals...}` strings.  A
rejected `loadImage` aborts the whole computation. -/
def generateFaceData (decode : String → Option (List Nat))
    (images : List String) : Except String (List String) :=
  images.foldlM
    (fun faceData src => do
      let img ← loadImage decode src
      let binaryStrings := generateBinaryStrings img
      Except.ok (faceData ++
        ["\x7b" ++ String.intercalate ", " binaryStrings ++ "\x7d"]))
    []

/-- One iteration of the outer face loop of `generateArduinoFaces`:
look the face up by name (`find?`, with `[]` when absent), pack all its
layers, and append the face's block to the collected output. -/
def faceEntryString (decode : String → Option (List Nat))
    (faces : List Face) (outputData : List String) (key : String) :
    Except String (List String) := do
  let face := ((faces.find? (fun item => item.name == key)).map
    Face.images).getD []
  let faceData ← generateFaceData decode face
  let facesString := String.intercalate ",\n"
    (faceData.map (fun item => "    " ++ item))
  let facesString := String.intercalate "\n" ["  \x7b", facesString, "  \x7d"]
  Except.ok (outputData ++ [facesString])

/-- `generateArduinoFaces` of `mapping.ts`: sort the face names, pack
every layer of every face (looked up by name), and emit the
`allFaces` PROGMEM table.  The returned promise is modelled by `Except`:
a failed image decode rejects the whole export and no output text is
produced. -/
def generateArduinoFaces (decode : String → Option (List Nat))
    (faces : List Face) : Except String String := do
  let faceKeys := sortJS (faces.map Face.name)
  let outputData ← faceKeys.foldlM (faceEntryString decode faces) []
  Except.ok (String.intercalate "\n"
    ["static const byte allFaces[][2][64] PROGMEM = \x7b",
      String.intercalate ",\n" outputData, "\x7d;\n"])

/-- The editor's `generateDataFromImg` per-pixel thresholding in
`TheEditor.vue`: a red sample below full brightness (255) is a set
pixel (`1`), a fully bright sample is unset (`0`). -/
def editorThreshold (redData : Nat) : Nat := if redData < 255 then 1 else 0

/-- A GoJS link's data in the legacy app (`mapper.js` and the diagram
init script): `data.from` and `data.to` are node keys (face indices) and
`data.isBiDirectional` the folding flag.  `id` models JavaScript object
identity of the link. -/
structure GoLink where
  id : Nat
  fromKey : Nat
  toKey : Nat
  isBiDirectional : Bool
deriving Repr, DecidableEq

/-- A JavaScript object keyed by node keys (face indices), modelling the
`mappings` dictionary of `mapper.js`. -/
abbrev MappingsJS := List (Nat × List String)

/-- Dictionary lookup `mappings[index]` for the legacy compiler. -/
def lookupJSNat (m : MappingsJS) (key : Nat) : Option (List String) :=
  (m.find? (fun p => p.1 == key)).map Prod.snd

/-- `addMapping` of `mapper.js`: push `mapping.name.toUpperCase()` under
`key`, creating the array if absent. -/
def addMappingJS (map : MappingsJS) (key : Nat) (mapping : Face) : MappingsJS :=
  if map.any (fun p => p.1 == key) then
    map.map (fun p =>
      if p.1 == key then (p.1, p.2 ++ [toUpperJS mapping.name]) else p)
  else
    map ++ [(key, [toUpperJS mapping.name])]

/-- `generateMappings` of `mapper.js`: for every link (each link is
enumerated exactly once as an outgoing link of its from-node), record
`facesArray[to]` under `from`, and — when the link is bidirectional —
also record `facesArray[from]` under `to`.  An out-of-range face index
makes the `mapping.name` access throw, modelled as `Except.error`. -/
def generateMappingsJS (facesArray : List Face) (links : List GoLink) :
    Except String MappingsJS :=
  links.foldlM
    (fun mappings item => do
      let target ← match facesArray[item.toKey]? with
        | some f => Except.ok f
        | none => Except.error "TypeError: cannot read name of undefined"
      let mappings := addMappingJS mappings item.fromKey target
      if item.isBiDirectional then
        match facesArray[item.fromKey]? with
        | some f => Except.ok (addMappingJS mappings item.toKey f)
        | none => Except.error "TypeError: cannot read name of undefined"
      else Except.ok mappings)
    []

/-- `getMaxLinks` of `mapper.js`. -/
def getMaxLinksJS (mappings : MappingsJS) : Nat :=
  mappings.foldl (fun acc cur => Nat.max acc cur.2.length) 0

/-- The rows emitted by `generateFileMappings` of `mapper.js`: stored
out-lists are right-padded with the sentinel (without sorting), and a
face index with no entry gets an all-sentinel row. -/
def generateFileRowsJS (mappings : MappingsJS) (max : Nat)
    (facesArray : List Face) : List (List String) :=
  let padded := mappings.map (fun p =>
    (p.1, p.2 ++ List.replicate (max - p.2.length) "INVALID_FACE"))
  facesArray.enum.map (fun p =>
    match lookupJSNat padded p.1 with
    | some row => row
    | none => List.replicate max "INVALID_FACE")

/-- The string built by `generateFileMappings` of `mapper.js`. -/
def generateFileMappingsJS (mappings : MappingsJS) (max : Nat)
    (facesArray : List Face) : String :=
  String.join (((generateFileRowsJS mappings max facesArray).zip
      facesArray).enum.map
    (fun p =>
      "  \x7b" ++ String.intercalate ", " p.2.1 ++ "\x7d" ++
        (if p.1 != facesArray.length - 1 then "," else "") ++
        " //" ++ toUpperJS p.2.2.name ++ "\n"))

/-- `generateDefines` of `mapper.js`: every define line ends in a
newline. -/
def generateDefinesJS (facesArray : List Face) : String :=
  String.join (facesArray.enum.map
    (fun p => "#define " ++ toUpperJS p.2.name ++ " " ++ toString p.1 ++ "\n"))

/-- `generateConfigFile` of `mapper.js`. -/
def generateConfigFileJS (facesArray : List Face) (links : List GoLink) :
    Except String String := do
  let mappings ← generateMappingsJS facesArray links
  let maxLinks := getMaxLinksJS mappings
  let fileMappings := generateFileMappingsJS mappings maxLinks facesArray
  Except.ok ("#define NUMBER_FACES " ++ toString facesArray.length ++
    "\n#define INVALID_FACE -1\n" ++ generateDefinesJS facesArray ++
    "\nconst int8_t nextFaces[][" ++ toString maxLinks ++ "] = \x7b\n" ++
    fileMappings ++ "\x7d;\n")

/-- The observable outcome of the legacy export click handler. -/
inductive ExportResult where
  | alert (message : String)
  | download (filename text : String)
  | jsError (e : String)
deriving Repr, DecidableEq

/-- `onClickExport` of `mapper.js`: `if (!facesArray)` alert and return —
note that only an *unset* `facesArray` is falsy in JavaScript; an empty
array passes the check and the file is generated and downloaded. -/
def onClickExport (facesArray : Option (List Face)) (links : List GoLink) :
    ExportResult :=
  match facesArray with
  | none => ExportResult.alert "No faces to export"
  | some arr =>
    match generateConfigFileJS arr links with
    | Except.ok text => ExportResult.download "facesConfig.h" text
    | Except.error e => ExportResult.jsError e

/-- The state observable after the `LinkDrawn` diagram listener ran:
the links still present in the diagram, and the final state of the drawn
link's data object (which survives, mutated, even when the link itself
was removed from the diagram). -/
structure LinkDrawnResult where
  links : List GoLink
  subjectData : GoLink
deriving Repr, DecidableEq

/-- The drawn link's data after the listener's first statement
(`setDataProperty(e.subject.data, "isBiDirectional", false)`). -/
def drawnSubj (subject : GoLink) : GoLink :=
  { subject with isBiDirectional := false }

/-- All links present in the diagram when the listener body runs: the
prior links plus the freshly drawn one (with the flag just initialised
to `false`). -/
def drawnAll (prior : List GoLink) (subject : GoLink) : List GoLink :=
  prior ++ [drawnSubj subject]

/-- The links enumerated by `e.subject.toNode.findLinksOutOf()` that
pass the `item.data.to === e.subject.data.from` test: links out of the
drawn link's target node back into its source node.  For a self-loop
this includes the drawn link itself. -/
def drawnMatched (prior : List GoLink) (subject : GoLink) : List GoLink :=
  (drawnAll prior subject).filter
    (fun item => item.fromKey == (drawnSubj subject).toKey &&
      item.toKey == (drawnSubj subject).fromKey)

/-- The `LinkDrawn` listener of the legacy diagram script: the drawn
link's `isBiDirectional` is initialised to `false`; then every matched
reverse link causes the drawn link to be removed and that matched link's
`isBiDirectional` flag to be set to `true`.  `prior` are the links
present before the draw; the drawn `subject` is already inserted when
the event fires. -/
def linkDrawnListener (prior : List GoLink) (subject : GoLink) :
    LinkDrawnResult :=
  if (drawnMatched prior subject).isEmpty then
    { links := drawnAll prior subject, subjectData := drawnSubj subject }
  else
    { links := ((drawnAll prior subject).map (fun l =>
        if (drawnMatched prior subject).any (fun item => item.id == l.id) then
          { l with isBiDirectional := true }
        else l)).filter (fun l => l.id != (drawnSubj subject).id)
      subjectData :=
        if (drawnMatched prior subject).any
            (fun item => item.id == (drawnSubj subject).id) then
          { drawnSubj subject with isBiDirectional := true }
        else drawnSubj subject }

/-- The directed edge contributed to the mappings by one link cell,
mirroring the cases of `generateMappingsStep`: `none` when the link is
dropped (unmatched target), otherwise the source name paired with the
uppercased target name. -/
def linkPair (cells : List Cell) (faces : List Face) (link : Cell) :
    Option (String × String) :=
  match getElementNameById cells link.sourceId,
        getElementNameById cells link.targetId with
  | some fromName, some toName =>
    match (faces.find? (fun face => face.name == toName)).map Face.name with
    | some target =>
      if target == "" then none else some (fromName, toUpperJS target)
    | none => none
  | _, _ => none

/-- The raw drawn connectivity of the graph: one directed edge of
resolved endpoint names per link cell. -/
def cellEdges (cells : List Cell) : List (String × String) :=
  (cells.filter (fun cell => cell.type == "standard.Link")).filterMap
    (fun link =>
      match getElementNameById cells link.sourceId,
            getElementNameById cells link.targetId with
      | some fromName, some toName => some (fromName, toName)
      | _, _ => none)

/-- Re-deriving edges from emitted rows: for the face of each row, every
non-sentinel token is resolved back to the face whose uppercased name is
that token. -/
def rederivedEdges (faces : List Face) (rows : List (List String)) :
    List (String × String) :=
  ((faces.map Face.name).zip rows).flatMap (fun p =>
    (p.2.filter (fun tok => tok != "INVALID_FACE")).filterMap (fun tok =>
      (faces.find? (fun f => toUpperJS f.name == tok)).map
        (fun f => (p.1, f.name))))

/-- Whether a link cell's resolved target name is the (nonempty) name of
a loaded face — exactly the keep-condition of `generateMappingsStep`. -/
def targetResolvesToFace (cells : List Cell) (faces : List Face)
    (link : Cell) : Bool :=
  match getElementNameById cells link.targetId with
  | some toName =>
    match (faces.find? (fun face => face.name == toName)).map Face.name with
    | some target => target != ""
    | none => false
  | none => false

/-- Whether a GoJS link connects the unordered node pair `{a, b}`. -/
def connectsPair (a b : Nat) (l : GoLink) : Bool :=
  (l.fromKey == a && l.toKey == b) || (l.fromKey == b && l.toKey == a)

/-- The full multiset of edges recorded by the compiler, link by link. -/
def linkPairs (cells : List Cell) (faces : List Face) :
    List (String × String) :=
  (cells.filter (fun cell => cell.type == "standard.Link")).filterMap
    (linkPair cells faces)

theorem charListLe_cons (x y : Char) (xs ys : List Char) :
    charListLe (x :: xs) (y :: ys) = true ↔
      (x < y ∨ (x = y ∧ charListLe xs ys = true)) := by
  simp only [charListLe]
  rcases lt_trichotomy x y with h | h | h
  · simp [h]
  · subst h
    simp [lt_irrefl]
  · have hn : ¬x < y := lt_asymm h
    have hne : x ≠ y := ne_of_gt h
    simp [hn, h, hne]

theorem charListLe_trans :
    ∀ (a b c : List Char), charListLe a b = true → charListLe b c = true →
      charListLe a c = true
  | [], _, _, _, _ => rfl
  | _ :: _, [], _, h, _ => by simp [charListLe] at h
  | _ :: _, _ :: _, [], _, h => by simp [charListLe] at h
  | x :: xs, y :: ys, z :: zs, h1, h2 => by
    rw [charListLe_cons] at h1 h2 ⊢
    rcases h1 with h1 | ⟨rfl, h1⟩
    · rcases h2 with h2 | ⟨rfl, _⟩
      · exact Or.inl (lt_trans h1 h2)
      · exact Or.inl h1
    · rcases h2 with h2 | ⟨rfl, h2⟩
      · exact Or.inl h2
      · exact Or.inr ⟨rfl, charListLe_trans xs ys zs h1 h2⟩

theorem charListLe_total :
    ∀ (a b : List Char), charListLe a b = true ∨ charListLe b a = true
  | [], _ => Or.inl rfl
  | _ :: _, [] => Or.inr rfl
  | x :: xs, y :: ys => by
    rw [charListLe_cons, charListLe_cons]
    rcases lt_trichotomy x y with h | h | h
    · exact Or.inl (Or.inl h)
    · subst h
      rcases charListLe_total xs ys with h | h
      · exact Or.inl (Or.inr ⟨rfl, h⟩)
      · exact Or.inr (Or.inr ⟨rfl, h⟩)
    · exact Or.inr (Or.inl h)

instance : IsTrans String stringLe :=
  ⟨fun a b c => charListLe_trans a.data b.data c.data⟩

instance : IsTotal String stringLe :=
  ⟨fun a b => charListLe_total a.data b.data⟩

theorem sortJS_sorted (l : List String) : List.Sorted stringLe (sortJS l) :=
  List.sorted_insertionSort stringLe l

theorem sortJS_perm (l : List String) : (sortJS l).Perm l :=
  List.perm_insertionSort stringLe l

theorem lookupJS_addMapping (m : Mappings) (k t k' : String) :
    lookupJS (addMapping m k t) k' =
      if k' = k then some (listOf m k ++ [toUpperJS t]) else lookupJS m k' := by
  unfold addMapping
  by_cases h : m.any (fun p => p.1 == k)
  · rw [if_pos h]
    unfold lookupJS
    rw [List.find?_map]
    have hpred : ((fun p : String × List String => p.1 == k') ∘
        (fun p : String × List String =>
          if p.1 == k then (p.1, p.2 ++ [toUpperJS t]) else p)) =
        fun p : String × List String => p.1 == k' := by
      funext p
      by_cases hq : p.1 = k <;> simp [hq]
    rw [hpred]
    cases hf : m.find? (fun p => p.1 == k') with
    | none =>
      by_cases hk : k' = k
      · subst hk
        rw [List.any_eq_true] at h
        obtain ⟨p, hp, hpk⟩ := h
        rw [List.find?_eq_none] at hf
        exact absurd hpk (hf p hp)
      · simp [lookupJS, hf, hk]
    | some p =>
      have hpk' := List.find?_some hf
      simp only [beq_iff_eq] at hpk'
      by_cases hk : k' = k
      · subst hk
        simp [listOf, lookupJS, hf, hpk']
      · simp [lookupJS, hf, hpk', hk]
  · rw [if_neg h]
    unfold lookupJS
    rw [List.find?_append]
    have hforall : ∀ x ∈ m, ¬(x.1 == k) = true := by
      intro x hx hkx
      exact h (List.any_eq_true.mpr ⟨x, hx, hkx⟩)
    by_cases hk : k' = k
    · subst hk
      have hnone : m.find? (fun p => p.1 == k') = none :=
        List.find?_eq_none.mpr hforall
      simp [listOf, lookupJS, hnone]
    · cases hf : m.find? (fun p => p.1 == k') with
      | none =>
        have hne : (k == k') = false := by
          rw [beq_eq_false_iff_ne]
          exact fun hkk => hk hkk.symm
        simp [lookupJS, hf, hne, hk]
      | some p =>
        simp [lookupJS, hf, hk]

theorem listOf_addMapping (m : Mappings) (k t k' : String) :
    listOf (addMapping m k t) k' =
      if k' = k then listOf m k ++ [toUpperJS t] else listOf m k' := by
  unfold listOf
  rw [lookupJS_addMapping]
  by_cases hk : k' = k <;> simp [hk, listOf]

theorem mem_of_lookupJS (m : Mappings) (k : String) (l : List String)
    (h : lookupJS m k = some l) : (k, l) ∈ m := by
  unfold lookupJS at h
  cases hf : m.find? (fun p => p.1 == k) with
  | none => rw [hf] at h; exact absurd h (by simp)
  | some p =>
    rw [hf] at h
    have hp1 := List.find?_some hf
    simp only [beq_iff_eq] at hp1
    have hmem := List.mem_of_find?_eq_some hf
    have hp2 : p.2 = l := by simpa using h
    have : p = (k, l) := by
      cases p
      simp_all
    rw [this] at hmem
    exact hmem

theorem le_foldl_max (l : List Nat) (a : Nat) : a ≤ l.foldl Nat.max a := by
  induction l generalizing a with
  | nil => exact le_refl a
  | cons x xs ih =>
    exact le_trans (Nat.le_max_left a x) (ih (Nat.max a x))

theorem mem_le_foldl_max (l : List Nat) (a x : Nat) (hx : x ∈ l) :
    x ≤ l.foldl Nat.max a := by
  induction l generalizing a with
  | nil => cases hx
  | cons y ys ih =>
    cases hx with
    | head => exact le_trans (Nat.le_max_right a x) (le_foldl_max ys _)
    | tail _ hmem => exact ih (Nat.max a y) hmem

theorem foldl_max_le (l : List Nat) (a b : Nat) (ha : a ≤ b)
    (h : ∀ x ∈ l, x ≤ b) : l.foldl Nat.max a ≤ b := by
  induction l generalizing a with
  | nil => exact ha
  | cons x xs ih =>
    exact ih (Nat.max a x)
      (Nat.max_le.mpr ⟨ha, h x (List.mem_cons_self x xs)⟩)
      (fun y hy => h y (List.mem_cons_of_mem x hy))

theorem getMaxLinks_eq_foldl (m : Mappings) :
    getMaxLinks m = (m.map (fun p => p.2.length)).foldl Nat.max 0 := by
  unfold getMaxLinks
  rw [List.foldl_map]

theorem length_le_getMaxLinks (m : Mappings) (p : String × List String)
    (hp : p ∈ m) : p.2.length ≤ getMaxLinks m := by
  rw [getMaxLinks_eq_foldl]
  exact mem_le_foldl_max _ 0 _ (List.mem_map_of_mem _ hp)

theorem listOf_length_le_getMaxLinks (m : Mappings) (k : String) :
    (listOf m k).length ≤ getMaxLinks m := by
  unfold listOf
  cases hf : lookupJS m k with
  | none => simp
  | some l =>
    simpa using length_le_getMaxLinks m (k, l) (mem_of_lookupJS m k l hf)

theorem exceptFoldlM_nil {σ α : Type} (f : σ → α → Except String σ) (b : σ) :
    ([] : List α).foldlM f b = Except.ok b := rfl

theorem exceptFoldlM_cons {σ α : Type} (f : σ → α → Except String σ) (a : α)
    (l : List α) (b : σ) :
    (a :: l).foldlM f b = (f b a).bind (fun b' => l.foldlM f b') := rfl

theorem exceptFold_invariant {σ α : Type} (f : σ → α → Except String σ)
    (P : σ → Prop) :
    ∀ (l : List α),
      (∀ b a, a ∈ l → P b → ∀ b', f b a = Except.ok b' → P b') →
      ∀ b₀ b, P b₀ → l.foldlM f b₀ = Except.ok b → P b := by
  intro l
  induction l with
  | nil =>
    intro _ b₀ b hP h
    rw [exceptFoldlM_nil] at h
    cases h
    exact hP
  | cons a rest ih =>
    intro hstep b₀ b hP h
    rw [exceptFoldlM_cons] at h
    cases hfa : f b₀ a with
    | error e => rw [hfa] at h; exact absurd h (by simp [Except.bind])
    | ok b₁ =>
      rw [hfa] at h
      simp only [Except.bind] at h
      exact ih (fun b' a' ha' => hstep b' a' (List.mem_cons_of_mem a ha'))
        b₁ b (hstep b₀ a (List.mem_cons_self a rest) hP b₁ hfa) h

theorem exceptFold_ok_mem {σ α : Type} (f : σ → α → Except String σ) :
    ∀ (l : List α) (b₀ b : σ), l.foldlM f b₀ = Except.ok b →
      ∀ a ∈ l, ∃ b1 b2, f b1 a = Except.ok b2 := by
  intro l
  induction l with
  | nil => intro b₀ b _ a ha; cases ha
  | cons x rest ih =>
    intro b₀ b h a ha
    rw [exceptFoldlM_cons] at h
    cases hfa : f b₀ x with
    | error e => rw [hfa] at h; exact absurd h (by simp [Except.bind])
    | ok b₁ =>
      rw [hfa] at h
      simp only [Except.bind] at h
      cases ha with
      | head => exact ⟨b₀, b₁, hfa⟩
      | tail _ hmem => exact ih b₁ b h a hmem

theorem exceptFold_ok_exists {σ α : Type} (f : σ → α → Except String σ) :
    ∀ (l : List α), (∀ b a, a ∈ l → ∃ b', f b a = Except.ok b') →
      ∀ b₀, ∃ b, l.foldlM f b₀ = Except.ok b := by
  intro l
  induction l with
  | nil => intro _ b₀; exact ⟨b₀, rfl⟩
  | cons x rest ih =>
    intro hstep b₀
    obtain ⟨b₁, hb₁⟩ := hstep b₀ x (List.mem_cons_self x rest)
    obtain ⟨b, hb⟩ := ih
      (fun b' a' ha' => hstep b' a' (List.mem_cons_of_mem x ha')) b₁
    exact ⟨b, by rw [exceptFoldlM_cons, hb₁]; simpa [Except.bind] using hb⟩

theorem keys_addMapping_of_any (m : Mappings) (k t : String)
    (h : m.any (fun p => p.1 == k) = true) :
    (addMapping m k t).map Prod.fst = m.map Prod.fst := by
  unfold addMapping
  rw [if_pos h, List.map_map]
  apply List.map_congr_left
  intro p _
  by_cases hq : p.1 = k <;> simp [hq]

theorem keys_addMapping_of_not_any (m : Mappings) (k t : String)
    (h : ¬m.any (fun p => p.1 == k) = true) :
    (addMapping m k t).map Prod.fst = m.map Prod.fst ++ [k] := by
  unfold addMapping
  rw [if_neg h]
  simp

theorem mem_addMapping (m : Mappings) (k t : String) (q : String × List String)
    (hq : q ∈ addMapping m k t) :
    q ∈ m ∨ (∃ p, p ∈ m ∧ q = (p.1, p.2 ++ [toUpperJS t])) ∨
      q = (k, [toUpperJS t]) := by
  unfold addMapping at hq
  by_cases h : m.any (fun p => p.1 == k) = true
  · rw [if_pos h] at hq
    obtain ⟨p, hp, hfp⟩ := List.mem_map.mp hq
    by_cases hpk : p.1 = k
    · simp only [hpk, beq_self_eq_true, if_pos] at hfp
      exact Or.inr (Or.inl ⟨p, hp, by rw [← hfp, hpk]⟩)
    · simp only [hpk, beq_iff_eq, if_neg, if_false] at hfp
      rw [hfp] at hp
      exact Or.inl hp
  · rw [if_neg h] at hq
    rcases List.mem_append.mp hq with hmem | hmem
    · exact Or.inl hmem
    · exact Or.inr (Or.inr (List.mem_singleton.mp hmem))

theorem keys_nodup_addMapping (m : Mappings) (k t : String)
    (h : (m.map Prod.fst).Nodup) :
    ((addMapping m k t).map Prod.fst).Nodup := by
  by_cases hany : m.any (fun p => p.1 == k) = true
  · rw [keys_addMapping_of_any m k t hany]
    exact h
  · rw [keys_addMapping_of_not_any m k t hany]
    rw [List.nodup_append]
    refine ⟨h, List.nodup_singleton k, ?_⟩
    intro x hx
    simp only [List.mem_singleton]
    intro hxk
    subst hxk
    obtain ⟨p, hp, hpk⟩ := List.mem_map.mp hx
    exact hany (List.any_eq_true.mpr ⟨p, hp, by simp [hpk]⟩)

theorem lookupJS_eq_of_mem_nodup (m : Mappings) (p : String × List String)
    (hnodup : (m.map Prod.fst).Nodup) (hp : p ∈ m) :
    lookupJS m p.1 = some p.2 := by
  induction m with
  | nil => cases hp
  | cons q rest ih =>
    rcases List.mem_cons.mp hp with rfl | hmem
    · simp [lookupJS]
    · have hq : q.1 ≠ p.1 := by
        intro hqp
        have : p.1 ∈ rest.map Prod.fst := List.mem_map_of_mem Prod.fst hmem
        rw [← hqp] at this
        exact (List.nodup_cons.mp (by simpa using hnodup)).1 this
      have hrest := ih (List.nodup_cons.mp (by simpa using hnodup)).2 hmem
      simp only [lookupJS, List.find?_cons] at hrest ⊢
      have : (q.1 == p.1) = false := by
        rw [beq_eq_false_iff_ne]
        exact hq
      rw [this]
      exact hrest

theorem generateMappingsStep_error_resolve (cells : List Cell)
    (faces : List Face) (m : Mappings) (link : Cell) (e : String)
    (hs : generateMappingsStep cells faces m link = Except.error e) :
    getElementNameById cells link.sourceId = none ∨
      getElementNameById cells link.targetId = none := by
  unfold generateMappingsStep at hs
  split at hs
  · split at hs
    · split at hs <;> cases hs
    · cases hs
  · rename_i o1 o2 hxy
    cases ha : getElementNameById cells link.sourceId with
    | none => exact Or.inl rfl
    | some f =>
      cases hb : getElementNameById cells link.targetId with
      | none => exact Or.inr rfl
      | some t => exact (hxy f t ha hb).elim

theorem generateMappingsStep_ok (cells : List Cell) (faces : List Face)
    (m : Mappings) (link : Cell)
    (h1 : (getElementNameById cells link.sourceId).isSome = true)
    (h2 : (getElementNameById cells link.targetId).isSome = true) :
    ∃ m', generateMappingsStep cells faces m link = Except.ok m' := by
  cases hres : generateMappingsStep cells faces m link with
  | ok m' => exact ⟨m', rfl⟩
  | error e =>
    rcases generateMappingsStep_error_resolve cells faces m link e hres with
      h | h
    · rw [h] at h1; cases h1
    · rw [h] at h2; cases h2

theorem generateMappingsStep_char (cells : List Cell) (faces : List Face)
    (m : Mappings) (link : Cell) (m₁ : Mappings)
    (hs : generateMappingsStep cells faces m link = Except.ok m₁) :
    (linkPair cells faces link = none ∧ m₁ = m) ∨
      (∃ fromName target,
        linkPair cells faces link = some (fromName, toUpperJS target) ∧
        m₁ = addMapping m fromName target ∧
        getElementNameById cells link.sourceId = some fromName ∧
        (∃ face, face ∈ faces ∧ face.name = target)) := by
  unfold generateMappingsStep at hs
  unfold linkPair
  split at hs
  · rename_i fromName toName heq1 heq2
    split at hs
    · rename_i target heq3
      split at hs
      · rename_i htgt
        cases hs
        exact Or.inl ⟨by rw [if_pos htgt], rfl⟩
      · rename_i htgt
        cases hs
        refine Or.inr ⟨fromName, target, by rw [if_neg htgt], rfl, heq1, ?_⟩
        cases hfind : faces.find? (fun face => face.name == toName) with
        | none => rw [hfind] at heq3; cases heq3
        | some face =>
          rw [hfind] at heq3
          exact ⟨face, List.mem_of_find?_eq_some hfind, by simpa using heq3⟩
    · cases hs
      exact Or.inl ⟨rfl, rfl⟩
  · cases hs

theorem linkPair_eq_none (cells : List Cell) (faces : List Face) (link : Cell)
    (hdrop : targetResolvesToFace cells faces link = false) :
    linkPair cells faces link = none := by
  unfold targetResolvesToFace at hdrop
  unfold linkPair
  split
  · rename_i fromName toName heq1 heq2
    rw [heq2] at hdrop
    dsimp only at hdrop
    split at hdrop
    · rename_i target heq3
      have htgt : (target == "") = true := by simpa using hdrop
      rw [if_pos htgt]
    · rfl
  · rfl

theorem generateMappingsStep_of_not_target (cells : List Cell)
    (faces : List Face) (m : Mappings) (link : Cell)
    (h1 : (getElementNameById cells link.sourceId).isSome = true)
    (h2 : (getElementNameById cells link.targetId).isSome = true)
    (hdrop : targetResolvesToFace cells faces link = false) :
    generateMappingsStep cells faces m link = Except.ok m := by
  obtain ⟨m', hok⟩ := generateMappingsStep_ok cells faces m link h1 h2
  rcases generateMappingsStep_char cells faces m link m' hok with
    ⟨-, rfl⟩ | ⟨fromName, target, hsome, -, -⟩
  · exact hok
  · rw [linkPair_eq_none cells faces link hdrop] at hsome
    cases hsome

theorem listOf_foldlM_generateMappingsStep (cells : List Cell)
    (faces : List Face) :
    ∀ (links : List Cell) (m₀ m : Mappings),
      links.foldlM (generateMappingsStep cells faces) m₀ = Except.ok m →
      ∀ k t, t ∈ listOf m k ↔
        (t ∈ listOf m₀ k ∨ (k, t) ∈ links.filterMap (linkPair cells faces)) := by
  intro links
  induction links with
  | nil =>
    intro m₀ m h k t
    rw [exceptFoldlM_nil] at h
    cases h
    simp
  | cons link rest ih =>
    intro m₀ m h k t
    rw [exceptFoldlM_cons] at h
    cases hs : generateMappingsStep cells faces m₀ link with
    | error e => rw [hs] at h; exact absurd h (by simp [Except.bind])
    | ok m₁ =>
      rw [hs] at h
      simp only [Except.bind] at h
      have hrest := ih m₁ m h k t
      rcases generateMappingsStep_char cells faces m₀ link m₁ hs with
        ⟨hnone, rfl⟩ | ⟨fromName, target, hsome, rfl, -, -⟩
      · rw [hrest]
        simp only [List.filterMap_cons, hnone]
      · rw [hrest, listOf_addMapping]
        simp only [List.filterMap_cons, hsome]
        by_cases hkf : k = fromName
        · subst hkf
          rw [if_pos rfl]
          simp only [List.mem_append, List.mem_singleton, List.mem_cons,
            Prod.mk.injEq]
          tauto
        · rw [if_neg hkf]
          simp only [List.mem_cons, Prod.mk.injEq]
          tauto

theorem mem_listOf_generateMappings (cells : List Cell) (faces : List Face)
    (m : Mappings) (h : generateMappings cells faces = Except.ok m)
    (k t : String) :
    t ∈ listOf m k ↔ (k, t) ∈ linkPairs cells faces := by
  have := listOf_foldlM_generateMappingsStep cells faces
    (cells.filter (fun cell => cell.type == "standard.Link")) [] m h k t
  rw [this]
  simp [listOf, lookupJS, linkPairs]

theorem generateMappings_keys_nodup (cells : List Cell) (faces : List Face)
    (m : Mappings) (h : generateMappings cells faces = Except.ok m) :
    (m.map Prod.fst).Nodup := by
  refine exceptFold_invariant (generateMappingsStep cells faces)
    (fun m => (m.map Prod.fst).Nodup) _ ?_ [] m (by simp) h
  intro b link _ hP b' hstep
  rcases generateMappingsStep_char cells faces b link b' hstep with
    ⟨-, rfl⟩ | ⟨fromName, target, -, rfl, -, -⟩
  · exact hP
  · exact keys_nodup_addMapping b fromName target hP

theorem generateMappings_keys_faces (cells : List Cell) (faces : List Face)
    (m : Mappings) (h : generateMappings cells faces = Except.ok m)
    (hsrc : ∀ link ∈ cells.filter (fun cell => cell.type == "standard.Link"),
      ∃ f, f ∈ faces ∧ getElementNameById cells link.sourceId = some f.name) :
    ∀ x ∈ m.map Prod.fst, ∃ f, f ∈ faces ∧ x = f.name := by
  refine exceptFold_invariant (generateMappingsStep cells faces)
    (fun m => ∀ x ∈ m.map Prod.fst, ∃ f, f ∈ faces ∧ x = f.name) _ ?_
    [] m (by simp) h
  intro b link hlink hP b' hstep
  rcases generateMappingsStep_char cells faces b link b' hstep with
    ⟨-, rfl⟩ | ⟨fromName, target, -, rfl, hres, -⟩
  · exact hP
  · intro x hx
    by_cases hany : b.any (fun p => p.1 == fromName) = true
    · rw [keys_addMapping_of_any b fromName target hany] at hx
      exact hP x hx
    · rw [keys_addMapping_of_not_any b fromName target hany] at hx
      rcases List.mem_append.mp hx with hx | hx
      · exact hP x hx
      · obtain ⟨f, hf, hfname⟩ := hsrc link hlink
        rw [List.mem_singleton.mp hx]
        rw [hres] at hfname
        exact ⟨f, hf, Option.some.injEq _ _ ▸ hfname⟩

theorem generateMappings_values_upper (cells : List Cell) (faces : List Face)
    (m : Mappings) (h : generateMappings cells faces = Except.ok m) :
    ∀ p ∈ m, ∀ s ∈ p.2, ∃ f, f ∈ faces ∧ s = toUpperJS f.name := by
  refine exceptFold_invariant (generateMappingsStep cells faces)
    (fun m => ∀ p ∈ m, ∀ s ∈ p.2, ∃ f, f ∈ faces ∧ s = toUpperJS f.name) _ ?_
    [] m (by simp) h
  intro b link _ hP b' hstep
  rcases generateMappingsStep_char cells faces b link b' hstep with
    ⟨-, rfl⟩ | ⟨fromName, target, -, rfl, -, face, hface, hfname⟩
  · exact hP
  · intro p hp s hs
    rcases mem_addMapping b fromName target p hp with hp | ⟨q, hq, rfl⟩ | rfl
    · exact hP p hp s hs
    · rcases List.mem_append.mp hs with hs | hs
      · exact hP q hq s hs
      · exact ⟨face, hface, by rw [List.mem_singleton.mp hs, hfname]⟩
    · exact ⟨face, hface, by rw [List.mem_singleton.mp hs, hfname]⟩

theorem lookupJS_fullMappingsOf (m : Mappings) (max : Nat) (k : String) :
    lookupJS (fullMappingsOf m max) k =
      (lookupJS m k).map
        (fun l => sortJS l ++ List.replicate (max - l.length) "INVALID_FACE") := by
  unfold fullMappingsOf lookupJS
  rw [List.find?_map]
  have hpred : ((fun p : String × List String => p.1 == k) ∘
      (fun p : String × List String =>
        (p.1, sortJS p.2 ++ List.replicate (max - p.2.length) "INVALID_FACE"))) =
      fun p : String × List String => p.1 == k := rfl
  rw [hpred]
  cases m.find? (fun p => p.1 == k) <;> rfl

theorem generateFileRows_eq (m : Mappings) (max : Nat) (faces : List Face) :
    generateFileRows m max faces =
      faces.map (fun f =>
        sortJS (listOf m f.name) ++
          List.replicate (max - (listOf m f.name).length) "INVALID_FACE") := by
  unfold generateFileRows
  apply List.map_congr_left
  intro face _
  rw [lookupJS_fullMappingsOf]
  cases h : lookupJS m face.name with
  | none => simp [listOf, h, sortJS, List.insertionSort]
  | some l => simp [listOf, h]

theorem length_sortJS (l : List String) : (sortJS l).length = l.length :=
  (sortJS_perm l).length_eq

theorem generateFileRows_length (m : Mappings) (max : Nat)
    (faces : List Face) :
    (generateFileRows m max faces).length = faces.length := by
  rw [generateFileRows_eq, List.length_map]

theorem generateFileRows_row_length (m : Mappings) (faces : List Face)
    (row : List String)
    (hrow : row ∈ generateFileRows m (getMaxLinks m) faces) :
    row.length = getMaxLinks m := by
  rw [generateFileRows_eq] at hrow
  obtain ⟨f, -, rfl⟩ := List.mem_map.mp hrow
  rw [List.length_append, length_sortJS, List.length_replicate]
  have := listOf_length_le_getMaxLinks m f.name
  omega

theorem getMaxLinks_eq_max_over_faces (cells : List Cell) (faces : List Face)
    (m : Mappings) (hok : generateMappings cells faces = Except.ok m)
    (hsrc : ∀ link ∈ cells.filter (fun cell => cell.type == "standard.Link"),
      ∃ f, f ∈ faces ∧ getElementNameById cells link.sourceId = some f.name) :
    getMaxLinks m =
      (faces.map (fun f => (listOf m f.name).length)).foldl Nat.max 0 := by
  have hnodup := generateMappings_keys_nodup cells faces m hok
  have hkeys := generateMappings_keys_faces cells faces m hok hsrc
  apply Nat.le_antisymm
  · rw [getMaxLinks_eq_foldl]
    apply foldl_max_le _ _ _ (Nat.zero_le _)
    intro x hx
    obtain ⟨p, hp, rfl⟩ := List.mem_map.mp hx
    obtain ⟨f, hf, hpf⟩ := hkeys p.1 (List.mem_map_of_mem Prod.fst hp)
    have hlook : lookupJS m p.1 = some p.2 :=
      lookupJS_eq_of_mem_nodup m p hnodup hp
    have : (listOf m f.name).length = p.2.length := by
      rw [← hpf, listOf, hlook]
      rfl
    rw [← this]
    exact mem_le_foldl_max _ 0 _
      (List.mem_map_of_mem (fun f => (listOf m f.name).length) hf)
  · apply foldl_max_le _ _ _ (Nat.zero_le _)
    intro x hx
    obtain ⟨f, -, rfl⟩ := List.mem_map.mp hx
    exact listOf_length_le_getMaxLinks m f.name

theorem drawnSubj_fromKey (subject : GoLink) :
    (drawnSubj subject).fromKey = subject.fromKey := rfl

theorem drawnSubj_toKey (subject : GoLink) :
    (drawnSubj subject).toKey = subject.toKey := rfl

theorem drawnSubj_id (subject : GoLink) :
    (drawnSubj subject).id = subject.id := rfl

theorem drawnMatched_self_mem (prior : List GoLink) (subject : GoLink)
    (hself : subject.fromKey = subject.toKey) :
    drawnSubj subject ∈ drawnMatched prior subject := by
  unfold drawnMatched drawnAll
  rw [List.mem_filter]
  constructor
  · exact List.mem_append_right prior (List.mem_singleton.mpr rfl)
  · simp [drawnSubj, hself]

theorem drawnMatched_isEmpty_false_of_mem (prior : List GoLink)
    (subject : GoLink) (l : GoLink) (hl : l ∈ drawnMatched prior subject) :
    (drawnMatched prior subject).isEmpty = false := by
  cases hd : drawnMatched prior subject with
  | nil => rw [hd] at hl; cases hl
  | cons x xs => rfl

/-- C10: for every newly drawn self-loop (a link whose source node equals
its target node), the `LinkDrawn` handler matches the new link against
itself — its `to` equals its own `from` — so the newly drawn link is
removed from the diagram and its `isBiDirectional` flag is set to
`true`; a plain one-directional self-loop never survives the draw
event. -/
theorem selfLoop_never_survives (prior : List GoLink) (subject : GoLink)
    (hself : subject.fromKey = subject.toKey) :
    (∀ l ∈ (linkDrawnListener prior subject).links, l.id ≠ subject.id) ∧
    (linkDrawnListener prior subject).subjectData.isBiDirectional = true := by
  have hmem := drawnMatched_self_mem prior subject hself
  have hne := drawnMatched_isEmpty_false_of_mem prior subject _ hmem
  unfold linkDrawnListener
  rw [if_neg (by simp [hne])]
  constructor
  · intro l hl
    dsimp only at hl
    rw [List.mem_filter] at hl
    have h2 := hl.2
    simp only [bne_iff_ne, ne_eq, drawnSubj_id] at h2
    exact h2
  · dsimp only
    rw [if_pos (List.any_eq_true.mpr ⟨drawnSubj subject, hmem, by simp⟩)]

/-- Witness for C10 at a concrete self-loop draw. -/
theorem selfLoop_never_survives_witness :
    (linkDrawnListener [] ⟨0, 1, 1, false⟩).subjectData.isBiDirectional =
      true :=
  (selfLoop_never_survives [] ⟨0, 1, 1, false⟩ rfl).2

/-- C3: drawing a new link B→A when a link A→B already exists between
the same two (distinct) nodes results in a single link object: the newly
drawn link is removed and the pre-existing reverse link's
`isBiDirectional` flag is set to `true`, so exactly one link object
connects the unordered pair after the merge. -/
theorem reverse_link_merged (prior : List GoLink) (subject L : GoLink)
    (a b : Nat) (hab : a ≠ b)
    (hsf : subject.fromKey = b) (hst : subject.toKey = a)
    (hLf : L.fromKey = a) (hLt : L.toKey = b)
    (hpair : prior.filter (connectsPair a b) = [L])
    (hid : subject.id ∉ prior.map GoLink.id) :
    ((linkDrawnListener prior subject).links).filter (connectsPair a b) =
      [{ L with isBiDirectional := true }] := by
  have hmatched : drawnMatched prior subject = [L] := by
    unfold drawnMatched drawnAll
    rw [List.filter_append]
    have hsubjpred :
        (((drawnSubj subject).fromKey == (drawnSubj subject).toKey &&
          (drawnSubj subject).toKey == (drawnSubj subject).fromKey)) =
          false := by
      simp only [drawnSubj_fromKey, drawnSubj_toKey, hsf, hst]
      simp only [Bool.and_eq_false_iff, beq_eq_false_iff_ne, ne_eq]
      exact Or.inl (fun hba => hab hba.symm)
    have hsingle :
        List.filter
          (fun item => item.fromKey == (drawnSubj subject).toKey &&
            item.toKey == (drawnSubj subject).fromKey)
          [drawnSubj subject] = [] := by
      rw [List.filter_cons]
      rw [if_neg (by simp [hsubjpred])]
      rfl
    rw [hsingle, List.append_nil]
    simp only [drawnSubj_toKey, drawnSubj_fromKey, hsf, hst]
    have hstep1 : prior.filter (fun l => l.fromKey == a && l.toKey == b) =
        prior.filter
          (fun x => (x.fromKey == a && x.toKey == b) && connectsPair a b x) := by
      apply List.filter_congr
      intro x _
      cases hx : (x.fromKey == a && x.toKey == b) with
      | false => rfl
      | true =>
        have hcp : connectsPair a b x = true := by
          unfold connectsPair
          rw [hx]
          rfl
        rw [hcp]
        rfl
    rw [hstep1, ← List.filter_filter, hpair]
    rw [List.filter_cons]
    rw [if_pos (by simp [hLf, hLt])]
    rfl
  have hne := drawnMatched_isEmpty_false_of_mem prior subject L
    (by rw [hmatched]; exact List.mem_singleton.mpr rfl)
  unfold linkDrawnListener
  rw [if_neg (by simp [hne])]
  dsimp only
  rw [hmatched, List.filter_filter, List.filter_map]
  have hcomp :
      ((fun x : GoLink =>
          connectsPair a b x && x.id != (drawnSubj subject).id) ∘
        (fun l : GoLink =>
          if ([L].any (fun item => item.id == l.id)) then
            { l with isBiDirectional := true }
          else l)) =
      fun x : GoLink => connectsPair a b x && x.id != subject.id := by
    funext l
    by_cases h : ([L].any (fun item => item.id == l.id)) = true
    · rw [Function.comp_apply, if_pos h]
      simp [connectsPair, drawnSubj_id]
    · rw [Function.comp_apply, if_neg h]
      simp [connectsPair, drawnSubj_id]
  rw [hcomp]
  unfold drawnAll
  rw [List.filter_append]
  have hsubj2 :
      List.filter
        (fun x : GoLink => connectsPair a b x && x.id != subject.id)
        [drawnSubj subject] = [] := by
    rw [List.filter_cons, if_neg (by simp [drawnSubj_id])]
    rfl
  rw [hsubj2, List.append_nil]
  have hprior :
      prior.filter
        (fun x : GoLink => connectsPair a b x && x.id != subject.id) =
        prior.filter (connectsPair a b) := by
    apply List.filter_congr
    intro l hl
    have hlid : (l.id != subject.id) = true := by
      simp only [bne_iff_ne, ne_eq]
      intro hkk
      exact hid (hkk ▸ List.mem_map_of_mem GoLink.id hl)
    rw [hlid, Bool.and_true]
  rw [hprior, hpair, List.map_cons, List.map_nil]
  have hgL :
      (if ([L].any (fun item => item.id == L.id)) then
        { L with isBiDirectional := true }
      else L) = { L with isBiDirectional := true } := by
    rw [if_pos (by simp)]
  rw [hgL]

/-- Witness for C3: node 1 already links to node 2; drawing the reverse
link merges it into the existing link with the flag set. -/
theorem reverse_link_merged_witness :
    ((linkDrawnListener [⟨5, 1, 2, false⟩] ⟨6, 2, 1, false⟩).links).filter
        (connectsPair 1 2) = [⟨5, 1, 2, true⟩] :=
  reverse_link_merged [⟨5, 1, 2, false⟩] ⟨6, 2, 1, false⟩ ⟨5, 1, 2, false⟩
    1 2 (by decide) rfl rfl rfl rfl (by decide) (by decide)

/-- C1 (evaluation at the failing input): in the current compiler
(`generateMappings` of `mapping.ts`), a single link A→B marked
`isBiDirectional` produces only the forward direction — A's out-list is
`["B"]` and no out-list is created for B.  The flag is never read by
`generateMappings`, so the source's uppercase name is not added to the
target's out-list, contradicting the claimed bidirectional expansion. -/
theorem bidirectional_link_only_forward_ts :
    generateMappings
        [⟨"1", "standard.Rectangle", "A", "", "", false⟩,
          ⟨"2", "standard.Rectangle", "B", "", "", false⟩,
          ⟨"3", "standard.Link", "", "1", "2", true⟩]
        [⟨"A", []⟩, ⟨"B", []⟩] =
      Except.ok [("A", ["B"])] ∧
    lookupJS [("A", ["B"])] "B" = none := ⟨rfl, rfl⟩

/-- C9 counterexample: with an empty (but set) face array, the legacy
export handler does *not* reject — `!facesArray` is false for an empty
JavaScript array — and a config file with `NUMBER_FACES 0` is
downloaded. -/
theorem empty_faces_export_not_rejected :
    onClickExport (some []) [] =
      ExportResult.download "facesConfig.h"
        "#define NUMBER_FACES 0\n#define INVALID_FACE -1\n\nconst int8_t nextFaces[][0] = \x7b\n\x7d;\n" ∧
    onClickExport (some []) [] ≠ ExportResult.alert "No faces to export" :=
  ⟨rfl, by decide⟩

/-- C9 amended: only an export attempted before any image upload
(`facesArray` still unset) is rejected with the `"No faces to export"`
warning and produces no file; an empty face list is exported. -/
theorem export_without_upload_alerts (links : List GoLink) :
    onClickExport none links = ExportResult.alert "No faces to export" := rfl

/-- C2: for every face count (any `faces`, any consistent graph whose
link sources are loaded faces), the compiled table has exactly one row
per face in face-index order; every row has exactly `maxLinks` tokens,
where `maxLinks` is the maximum out-list length across all faces (`0`
when no face has links); each out-list is right-padded with the sentinel
`"INVALID_FACE"`, and a face with zero out-links gets an all-sentinel
row. -/
theorem mapping_table_shape (cells : List Cell) (faces : List Face)
    (m : Mappings) (hok : generateMappings cells faces = Except.ok m)
    (hsrc : ∀ link ∈ cells.filter (fun cell => cell.type == "standard.Link"),
      ∃ f, f ∈ faces ∧ getElementNameById cells link.sourceId = some f.name) :
    (generateFileRows m (getMaxLinks m) faces).length = faces.length ∧
    (∀ row ∈ generateFileRows m (getMaxLinks m) faces,
      row.length = getMaxLinks m) ∧
    getMaxLinks m =
      (faces.map (fun f => (listOf m f.name).length)).foldl Nat.max 0 ∧
    generateFileRows m (getMaxLinks m) faces =
      faces.map (fun f =>
        sortJS (listOf m f.name) ++
          List.replicate (getMaxLinks m - (listOf m f.name).length)
            "INVALID_FACE") ∧
    (∀ (i : Nat) (f : Face), faces[i]? = some f → listOf m f.name = [] →
      (generateFileRows m (getMaxLinks m) faces)[i]? =
        some (List.replicate (getMaxLinks m) "INVALID_FACE")) := by
  refine ⟨generateFileRows_length m _ faces,
    fun row hrow => generateFileRows_row_length m faces row hrow,
    getMaxLinks_eq_max_over_faces cells faces m hok hsrc,
    generateFileRows_eq m _ faces, ?_⟩
  intro i f hf hnil
  rw [generateFileRows_eq, List.getElem?_map, hf]
  simp [hnil, sortJS, List.insertionSort]

/-- Witness for C2 on a concrete two-face cycle. -/
theorem mapping_table_shape_witness :
    (generateFileRows [("A", ["B"]), ("B", ["A"])]
        (getMaxLinks [("A", ["B"]), ("B", ["A"])])
        [⟨"A", []⟩, ⟨"B", []⟩]).length = 2 ∧
    getMaxLinks [("A", ["B"]), ("B", ["A"])] =
      (([⟨"A", []⟩, ⟨"B", []⟩] : List Face).map
        (fun f => (listOf [("A", ["B"]), ("B", ["A"])] f.name).length)).foldl
          Nat.max 0 :=
  ⟨(mapping_table_shape
      [⟨"1", "standard.Rectangle", "A", "", "", false⟩,
        ⟨"2", "standard.Rectangle", "B", "", "", false⟩,
        ⟨"3", "standard.Link", "", "1", "2", false⟩,
        ⟨"4", "standard.Link", "", "2", "1", false⟩]
      [⟨"A", []⟩, ⟨"B", []⟩] [("A", ["B"]), ("B", ["A"])] rfl
      (by decide)).1,
    (mapping_table_shape
      [⟨"1", "standard.Rectangle", "A", "", "", false⟩,
        ⟨"2", "standard.Rectangle", "B", "", "", false⟩,
        ⟨"3", "standard.Link", "", "1", "2", false⟩,
        ⟨"4", "standard.Link", "", "2", "1", false⟩]
      [⟨"A", []⟩, ⟨"B", []⟩] [("A", ["B"]), ("B", ["A"])] rfl
      (by decide)).2.2.1⟩

/-- C5 counterexample: the legacy compiler (`generateFileMappings` of
`mapper.js`) emits out-lists in insertion order without sorting: with
links 0→2 then 0→1, the first row is `["C", "B"]`, which is not sorted
ascending. -/
theorem legacy_rows_not_sorted :
    generateMappingsJS [⟨"A", []⟩, ⟨"B", []⟩, ⟨"C", []⟩]
        [⟨0, 0, 2, false⟩, ⟨1, 0, 1, false⟩] =
      Except.ok [(0, ["C", "B"])] ∧
    (generateFileRowsJS [(0, ["C", "B"])] 2
        [⟨"A", []⟩, ⟨"B", []⟩, ⟨"C", []⟩])[0]? = some ["C", "B"] ∧
    sortJS ["C", "B"] ≠ ["C", "B"] := ⟨rfl, rfl, by decide⟩

/-- C5 amended: in the current compiler (`mapping.ts`) every emitted row
is the sorted-ascending permutation of the collected uppercase tokens,
followed by the sentinel padding; the legacy `mapper.js` compiler pads
without sorting. -/
theorem rows_sorted_before_padding (m : Mappings) (max : Nat)
    (faces : List Face) (i : Nat) (f : Face) (hf : faces[i]? = some f) :
    (generateFileRows m max faces)[i]? =
      some (sortJS (listOf m f.name) ++
        List.replicate (max - (listOf m f.name).length) "INVALID_FACE") ∧
    List.Sorted stringLe (sortJS (listOf m f.name)) ∧
    (sortJS (listOf m f.name)).Perm (listOf m f.name) := by
  refine ⟨?_, sortJS_sorted _, sortJS_perm _⟩
  rw [generateFileRows_eq, List.getElem?_map, hf]
  simp [length_sortJS]

/-- Witness for the amended C5 at a concrete unsorted out-list. -/
theorem rows_sorted_before_padding_witness :
    (generateFileRows [("A", ["C", "B"])] 3 [⟨"A", []⟩])[0]? =
      some (sortJS (listOf [("A", ["C", "B"])] "A") ++
        List.replicate (3 - (listOf [("A", ["C", "B"])] "A").length)
          "INVALID_FACE") ∧
    List.Sorted stringLe (sortJS (listOf [("A", ["C", "B"])] "A")) ∧
    (sortJS (listOf [("A", ["C", "B"])] "A")).Perm
      (listOf [("A", ["C", "B"])] "A") :=
  rows_sorted_before_padding [("A", ["C", "B"])] 3 [⟨"A", []⟩] 0 ⟨"A", []⟩ rfl

theorem foldlM_filter_dropped (cells : List Cell) (faces : List Face) :
    ∀ (links : List Cell) (m₀ : Mappings),
      (∀ link ∈ links,
        (getElementNameById cells link.sourceId).isSome = true ∧
        (getElementNameById cells link.targetId).isSome = true) →
      links.foldlM (generateMappingsStep cells faces) m₀ =
        (links.filter (targetResolvesToFace cells faces)).foldlM
          (generateMappingsStep cells faces) m₀ := by
  intro links
  induction links with
  | nil => intro m₀ _; rfl
  | cons link rest ih =>
    intro m₀ hres
    rw [List.filter_cons]
    by_cases hk : targetResolvesToFace cells faces link = true
    · rw [if_pos hk, exceptFoldlM_cons, exceptFoldlM_cons]
      cases hs : generateMappingsStep cells faces m₀ link with
      | error e => rfl
      | ok m₁ =>
        simp only [Except.bind]
        exact ih m₁ (fun l hl => hres l (List.mem_cons_of_mem link hl))
    · rw [if_neg hk]
      have hdrop : targetResolvesToFace cells faces link = false := by
        revert hk
        cases targetResolvesToFace cells faces link <;> simp
      rw [exceptFoldlM_cons,
        generateMappingsStep_of_not_target cells faces m₀ link
          (hres link (List.mem_cons_self link rest)).1
          (hres link (List.mem_cons_self link rest)).2 hdrop]
      simp only [Except.bind]
      exact ih m₀ (fun l hl => hres l (List.mem_cons_of_mem link hl))

/-- C8: with an internally consistent graph (every link endpoint id has
a cell — guaranteed by the diagram library), compilation never fails,
and every link whose resolved target name is not the (nonempty) name of
a loaded face contributes nothing to any out-list: folding over only the
resolving links yields exactly the same dictionary. -/
theorem unmatched_links_silently_dropped (cells : List Cell)
    (faces : List Face)
    (hres : ∀ link ∈ cells.filter (fun cell => cell.type == "standard.Link"),
      (getElementNameById cells link.sourceId).isSome = true ∧
      (getElementNameById cells link.targetId).isSome = true) :
    (generateMappings cells faces).isOk = true ∧
    generateMappings cells faces =
      ((cells.filter (fun cell => cell.type == "standard.Link")).filter
          (targetResolvesToFace cells faces)).foldlM
        (generateMappingsStep cells faces) [] := by
  constructor
  · obtain ⟨m, hm⟩ := exceptFold_ok_exists (generateMappingsStep cells faces)
      (cells.filter (fun cell => cell.type == "standard.Link"))
      (fun b link hl => generateMappingsStep_ok cells faces b link
        (hres link hl).1 (hres link hl).2) []
    unfold generateMappings
    rw [hm]
    rfl
  · exact foldlM_filter_dropped cells faces _ [] hres

/-- Witness for C8: a link to a node that is not a loaded face is
dropped without failing. -/
theorem unmatched_links_silently_dropped_witness :
    (generateMappings
        [⟨"1", "standard.Rectangle", "A", "", "", false⟩,
          ⟨"2", "standard.Rectangle", "X", "", "", false⟩,
          ⟨"3", "standard.Link", "", "1", "2", false⟩]
        [⟨"A", []⟩]).isOk = true ∧
    generateMappings
        [⟨"1", "standard.Rectangle", "A", "", "", false⟩,
          ⟨"2", "standard.Rectangle", "X", "", "", false⟩,
          ⟨"3", "standard.Link", "", "1", "2", false⟩]
        [⟨"A", []⟩] =
      ((([⟨"1", "standard.Rectangle", "A", "", "", false⟩,
          ⟨"2", "standard.Rectangle", "X", "", "", false⟩,
          ⟨"3", "standard.Link", "", "1", "2", false⟩] : List Cell).filter
            (fun cell => cell.type == "standard.Link")).filter
          (targetResolvesToFace
            [⟨"1", "standard.Rectangle", "A", "", "", false⟩,
              ⟨"2", "standard.Rectangle", "X", "", "", false⟩,
              ⟨"3", "standard.Link", "", "1", "2", false⟩]
            [⟨"A", []⟩])).foldlM
        (generateMappingsStep
          [⟨"1", "standard.Rectangle", "A", "", "", false⟩,
            ⟨"2", "standard.Rectangle", "X", "", "", false⟩,
            ⟨"3", "standard.Link", "", "1", "2", false⟩]
          [⟨"A", []⟩]) [] :=
  unmatched_links_silently_dropped
    [⟨"1", "standard.Rectangle", "A", "", "", false⟩,
      ⟨"2", "standard.Rectangle", "X", "", "", false⟩,
      ⟨"3", "standard.Link", "", "1", "2", false⟩]
    [⟨"A", []⟩] (by decide)

theorem find?_name_of_nodup (faces : List Face) (f : Face)
    (hnodup : (faces.map Face.name).Nodup) (hf : f ∈ faces) :
    faces.find? (fun item => item.name == f.name) = some f := by
  induction faces with
  | nil => cases hf
  | cons q rest ih =>
    rcases List.mem_cons.mp hf with rfl | hmem
    · simp [List.find?_cons]
    · have hq : q.name ≠ f.name := by
        intro hqf
        have : f.name ∈ rest.map Face.name := List.mem_map_of_mem Face.name hmem
        rw [← hqf] at this
        exact (List.nodup_cons.mp (by simpa using hnodup)).1 this
      have hq2 : (q.name == f.name) = false := by simp [hq]
      rw [List.find?_cons, hq2]
      exact ih (List.nodup_cons.mp (by simpa using hnodup)).2 hmem

/-- C7: if any layer image of any face fails to decode, the whole
`generateArduinoFaces` export rejects (the `Except` result is an error,
so no output text — not even partial — is produced); blank data is
never substituted.  Face names are unique per the data model. -/
theorem image_load_failure_rejects (decode : String → Option (List Nat))
    (faces : List Face)
    (hnodup : (faces.map Face.name).Nodup)
    (hfail : ∃ f, f ∈ faces ∧ ∃ src, src ∈ f.images ∧ decode src = none) :
    (generateArduinoFaces decode faces).isOk = false := by
  cases h : generateArduinoFaces decode faces with
  | error e => rfl
  | ok s =>
    exfalso
    obtain ⟨f₀, hf₀, src, hsrc, hdec⟩ := hfail
    unfold generateArduinoFaces at h
    dsimp only at h
    cases hfold : (sortJS (faces.map Face.name)).foldlM
        (faceEntryString decode faces) [] with
    | error e =>
      rw [hfold] at h
      exact Except.noConfusion h
    | ok od =>
      have hmem : f₀.name ∈ sortJS (faces.map Face.name) := by
        unfold sortJS
        exact (List.mem_insertionSort stringLe).mpr
          (List.mem_map_of_mem Face.name hf₀)
      obtain ⟨b1, b2, hstep⟩ := exceptFold_ok_mem
        (faceEntryString decode faces) _ [] od hfold f₀.name hmem
      unfold faceEntryString at hstep
      rw [find?_name_of_nodup faces f₀ hnodup hf₀] at hstep
      have himg : (Option.map Face.images (some f₀)).getD [] = f₀.images :=
        rfl
      rw [himg] at hstep
      dsimp only at hstep
      cases hfd : generateFaceData decode f₀.images with
      | error e =>
        rw [hfd] at hstep
        exact Except.noConfusion hstep
      | ok fd =>
        obtain ⟨c1, c2, hinner⟩ := exceptFold_ok_mem _ f₀.images [] fd
          hfd src hsrc
        dsimp only at hinner
        unfold loadImage at hinner
        rw [hdec] at hinner
        exact Except.noConfusion hinner

/-- Witness for C7: a single face whose only image never decodes. -/
theorem image_load_failure_rejects_witness :
    (generateArduinoFaces (fun _ => none) [⟨"A", ["img0"]⟩]).isOk = false :=
  image_load_failure_rejects (fun _ => none) [⟨"A", ["img0"]⟩]
    (by decide) ⟨⟨"A", ["img0"]⟩, by decide, "img0", by decide, rfl⟩

theorem filterMap_range_if (v : Nat) :
    ∀ (m k : Nat),
      (List.range m).filterMap
          (fun i => if i < k then some v else none) =
        List.replicate (Nat.min k m) v := by
  intro m
  induction m with
  | zero => intro k; simp
  | succ m ih =>
    intro k
    rw [List.range_succ, List.filterMap_append, ih]
    by_cases h : m < k
    · have h1 : Nat.min k m = m := Nat.min_eq_right (by omega)
      have h2 : Nat.min k (m + 1) = m + 1 := Nat.min_eq_right (by omega)
      rw [h1, h2]
      simp only [List.filterMap_cons, if_pos h, List.filterMap_nil]
      exact (List.replicate_succ' m v).symm
    · have h1 : Nat.min k m = k := Nat.min_eq_left (by omega)
      have h2 : Nat.min k (m + 1) = k := Nat.min_eq_left (by omega)
      rw [h1, h2]
      simp only [List.filterMap_cons, if_neg h, List.filterMap_nil,
        List.append_nil]

theorem redChannelData_replicate (n v : Nat) :
    redChannelData (List.replicate (4 * n) v) =
      List.replicate n (sampleBit v) := by
  unfold redChannelData
  rw [List.length_replicate]
  have h1 : (List.range (4 * n)).map
      (fun i => (List.replicate (4 * n) v)[i * 4]?) =
      (List.range (4 * n)).map (fun i => if i < n then some v else none) := by
    apply List.map_congr_left
    intro i _
    rw [List.getElem?_replicate]
    by_cases h : i < n
    · rw [if_pos (by omega), if_pos h]
    · rw [if_neg (by omega), if_neg h]
  rw [h1, List.filterMap_map]
  rw [show (id ∘ fun i : Nat => if i < n then some v else none) =
    (fun i : Nat => if i < n then some v else none) from rfl]
  rw [filterMap_range_if]
  have hmin : Nat.min n (4 * n) = n := Nat.min_eq_left (by omega)
  rw [hmin, List.map_replicate]

theorem chunksOf8_replicate (b : Nat) :
    ∀ k : Nat, chunksOf8 (List.replicate (8 * k) b) =
      List.replicate k (List.replicate 8 b) := by
  intro k
  induction k with
  | zero => rfl
  | succ k ih =>
    have hsplit : List.replicate (8 * (k + 1)) b =
        b :: b :: b :: b :: b :: b :: b :: b :: List.replicate (8 * k) b := by
      rw [Nat.mul_succ, Nat.add_comm, List.replicate_add]
      rfl
    have hstep : ∀ rest : List Nat,
        chunksOf8 (b :: b :: b :: b :: b :: b :: b :: b :: rest) =
          [b, b, b, b, b, b, b, b] :: chunksOf8 rest := fun rest => rfl
    rw [hsplit, hstep, ih, List.replicate_succ]
    rfl

theorem generateBinaryStrings_replicate_255 :
    generateBinaryStrings (List.replicate 2048 255) =
      List.replicate 64 "0b00000000" := by
  unfold generateBinaryStrings
  rw [show (2048 : Nat) = 4 * 512 from rfl, redChannelData_replicate]
  rw [show sampleBit 255 = 0 from rfl,
    show (512 : Nat) = 8 * 64 from rfl, chunksOf8_replicate,
    List.map_replicate]
  rfl

theorem generateBinaryStrings_replicate_0 :
    generateBinaryStrings (List.replicate 2048 0) =
      List.replicate 64 "0b11111111" := by
  unfold generateBinaryStrings
  rw [show (2048 : Nat) = 4 * 512 from rfl, redChannelData_replicate]
  rw [show sampleBit 0 = 1 from rfl,
    show (512 : Nat) = 8 * 64 from rfl, chunksOf8_replicate,
    List.map_replicate]
  rfl

theorem generateBinaryStrings_replicate_128 :
    generateBinaryStrings (List.replicate 2048 128) =
      List.replicate 64 "0b00000000" := by
  unfold generateBinaryStrings
  rw [show (2048 : Nat) = 4 * 512 from rfl, redChannelData_replicate]
  rw [show sampleBit 128 = 0 from rfl,
    show (512 : Nat) = 8 * 64 from rfl, chunksOf8_replicate,
    List.map_replicate]
  rfl

/-- C4 counterexample: a uniform mid-gray 32×16 RGBA buffer (red channel
128, which is below full brightness) packs to 64 `0b00000000` literals
per layer — bit `0` for every pixel — whereas the claim's threshold
("any channel value below 255 produces bit 1") would demand
`0b11111111`.  The packer maps only a `0` sample to bit `1`. -/
theorem packer_threshold_counterexample :
    generateBinaryStrings (List.replicate 2048 128) =
      List.replicate 64 "0b00000000" ∧
    ¬generateBinaryStrings (List.replicate 2048 128) =
      List.replicate 64 "0b11111111" := by
  refine ⟨generateBinaryStrings_replicate_128, ?_⟩
  rw [generateBinaryStrings_replicate_128]
  intro h
  have := congrArg (fun l => l[0]?) h
  simp at this

/-- C4 amended: the packer (`generateBinaryStrings` of `mapping.ts`)
maps a red sample of `0` to bit `1` and any nonzero sample to bit `0`
(the below-255 thresholding belongs to the editor's image import,
`generateDataFromImg` of `TheEditor.vue`); consequently an all-white
32×16 RGBA buffer (all samples 255) packs to 64 literals `0b00000000`
per layer, and an all-black buffer (red samples 0) to 64 literals
`0b11111111` per layer (two layers per face, 128 literals in total). -/
theorem packer_bit_rule :
    (∀ v : Nat, v ≠ 0 → sampleBit v = 0) ∧
    sampleBit 0 = 1 ∧
    generateBinaryStrings (List.replicate 2048 255) =
      List.replicate 64 "0b00000000" ∧
    generateBinaryStrings (List.replicate 2048 0) =
      List.replicate 64 "0b11111111" ∧
    editorThreshold 254 = 1 ∧ editorThreshold 255 = 0 := by
  refine ⟨?_, rfl, generateBinaryStrings_replicate_255,
    generateBinaryStrings_replicate_0, rfl, rfl⟩
  intro v hv
  unfold sampleBit
  rw [if_neg (by simpa using hv)]

/-- Witness for the amended C4 discharging the nonzero-sample rule at a
concrete sample. -/
theorem packer_bit_rule_witness : sampleBit 77 = 0 ∧ sampleBit 0 = 1 :=
  ⟨packer_bit_rule.1 77 (by decide), packer_bit_rule.2.1⟩

theorem linkPair_of_resolved (cells : List Cell) (faces : List Face)
    (link : Cell) (fsrc ftgt : Face)
    (hftgt : ftgt ∈ faces)
    (hsrcres : getElementNameById cells link.sourceId = some fsrc.name)
    (htgtres : getElementNameById cells link.targetId = some ftgt.name)
    (hne0 : ftgt.name ≠ "") :
    linkPair cells faces link = some (fsrc.name, toUpperJS ftgt.name) := by
  unfold linkPair
  rw [hsrcres, htgtres]
  dsimp only
  cases hfind : faces.find? (fun face => face.name == ftgt.name) with
  | none =>
    rw [List.find?_eq_none] at hfind
    exact absurd (by simp) (hfind ftgt hftgt)
  | some g0 =>
    rw [Option.map_some']
    have hg0 : g0.name = ftgt.name := by simpa using List.find?_some hfind
    rw [hg0]
    dsimp only
    rw [if_neg (by simpa using hne0)]

/-- C6: round-trip.  For every face list and link set — cyclic or acyclic
— over a consistent graph (link endpoints resolve to loaded, nonempty,
uppercase-distinct face names none of which collides with the sentinel),
compiling the table and re-deriving edges from the emitted rows by
dropping sentinel tokens and mapping each token back to the face with
that uppercase name reproduces exactly the drawn connectivity, as a set
of directed edges (link identity and order ignored). -/
theorem roundtrip_connectivity (cells : List Cell) (faces : List Face)
    (m : Mappings) (hok : generateMappings cells faces = Except.ok m)
    (hsrc : ∀ link ∈ cells.filter (fun cell => cell.type == "standard.Link"),
      ∃ f, f ∈ faces ∧ getElementNameById cells link.sourceId = some f.name)
    (htgt : ∀ link ∈ cells.filter (fun cell => cell.type == "standard.Link"),
      ∃ f, f ∈ faces ∧ getElementNameById cells link.targetId = some f.name)
    (hne : ∀ f ∈ faces, f.name ≠ "")
    (hinv : ∀ f ∈ faces, toUpperJS f.name ≠ "INVALID_FACE")
    (hupinj : ∀ f ∈ faces, ∀ g ∈ faces,
      toUpperJS f.name = toUpperJS g.name → f.name = g.name) :
    ∀ a b : String,
      (a, b) ∈ rederivedEdges faces
        (generateFileRows m (getMaxLinks m) faces) ↔
      (a, b) ∈ cellEdges cells := by
  intro a b
  unfold rederivedEdges
  rw [generateFileRows_eq, List.zip_map']
  simp only [List.mem_flatMap, List.mem_map]
  constructor
  · rintro ⟨p, ⟨f, hf, rfl⟩, hpin⟩
    rw [List.mem_filterMap] at hpin
    obtain ⟨tok, htokmem, htokmap⟩ := hpin
    rw [List.mem_filter] at htokmem
    obtain ⟨htokrow, htokne⟩ := htokmem
    have htoklist : tok ∈ listOf m f.name := by
      rcases List.mem_append.mp htokrow with h | h
      · unfold sortJS at h
        exact (List.mem_insertionSort stringLe).mp h
      · exfalso
        rw [List.eq_of_mem_replicate h] at htokne
        simp at htokne
    have hlp := (mem_listOf_generateMappings cells faces m hok f.name
      tok).mp htoklist
    unfold linkPairs at hlp
    rw [List.mem_filterMap] at hlp
    obtain ⟨link, hlink, hlinkpair⟩ := hlp
    obtain ⟨fsrc, hfsrc, hsrcres⟩ := hsrc link hlink
    obtain ⟨ftgt, hftgt, htgtres⟩ := htgt link hlink
    rw [linkPair_of_resolved cells faces link fsrc ftgt hftgt hsrcres
      htgtres (hne ftgt hftgt)] at hlinkpair
    have hpair := Option.some.inj hlinkpair
    have hfname : f.name = fsrc.name := (congrArg Prod.fst hpair).symm
    have htokup : tok = toUpperJS ftgt.name := (congrArg Prod.snd hpair).symm
    cases hfindg : faces.find? (fun g => toUpperJS g.name == tok) with
    | none =>
      rw [hfindg] at htokmap
      cases htokmap
    | some g =>
      rw [hfindg, Option.map_some'] at htokmap
      have hgmem := List.mem_of_find?_eq_some hfindg
      have hgup : toUpperJS g.name = tok := by
        simpa using List.find?_some hfindg
      have hgname : g.name = ftgt.name :=
        hupinj g hgmem ftgt hftgt (by rw [hgup, htokup])
      have hpair2 := Option.some.inj htokmap
      have hab : a = f.name ∧ b = g.name :=
        ⟨(congrArg Prod.fst hpair2).symm, (congrArg Prod.snd hpair2).symm⟩
      unfold cellEdges
      rw [List.mem_filterMap]
      refine ⟨link, hlink, ?_⟩
      rw [hsrcres, htgtres]
      dsimp only
      rw [hab.1, hab.2, hfname, hgname]
  · intro hab
    unfold cellEdges at hab
    rw [List.mem_filterMap] at hab
    obtain ⟨link, hlink, hres2⟩ := hab
    obtain ⟨fsrc, hfsrc, hsrcres⟩ := hsrc link hlink
    obtain ⟨ftgt, hftgt, htgtres⟩ := htgt link hlink
    rw [hsrcres, htgtres] at hres2
    dsimp only at hres2
    have ha : a = fsrc.name := by
      simpa using (congrArg (fun q => q.1)
        (Option.some.injEq _ _ ▸ hres2)).symm
    have hb : b = ftgt.name := by
      simpa using (congrArg (fun q => q.2)
        (Option.some.injEq _ _ ▸ hres2)).symm
    refine ⟨(fsrc.name,
      sortJS (listOf m fsrc.name) ++
        List.replicate (getMaxLinks m - (listOf m fsrc.name).length)
          "INVALID_FACE"), ⟨fsrc, hfsrc, rfl⟩, ?_⟩
    rw [List.mem_filterMap]
    refine ⟨toUpperJS ftgt.name, ?_, ?_⟩
    · rw [List.mem_filter]
      constructor
      · apply List.mem_append_left
        unfold sortJS
        apply (List.mem_insertionSort stringLe).mpr
        apply (mem_listOf_generateMappings cells faces m hok fsrc.name
          (toUpperJS ftgt.name)).mpr
        unfold linkPairs
        rw [List.mem_filterMap]
        exact ⟨link, hlink, linkPair_of_resolved cells faces link fsrc ftgt
          hftgt hsrcres htgtres (hne ftgt hftgt)⟩
      · simpa using hinv ftgt hftgt
    · cases hfindg : faces.find?
          (fun g => toUpperJS g.name == toUpperJS ftgt.name) with
      | none =>
        rw [List.find?_eq_none] at hfindg
        exact absurd (by simp) (hfindg ftgt hftgt)
      | some g =>
        rw [Option.map_some']
        have hgmem := List.mem_of_find?_eq_some hfindg
        have hgup : toUpperJS g.name = toUpperJS ftgt.name := by
          simpa using List.find?_some hfindg
        have hgname : g.name = ftgt.name :=
          hupinj g hgmem ftgt hftgt hgup
        rw [ha, hb, hgname]

/-- Witness for C6 on a concrete three-face cycle A→B→C→A. -/
theorem roundtrip_connectivity_witness :
    (("A", "B") ∈ rederivedEdges [⟨"A", []⟩, ⟨"B", []⟩, ⟨"C", []⟩]
        (generateFileRows [("A", ["B"]), ("B", ["C"]), ("C", ["A"])]
          (getMaxLinks [("A", ["B"]), ("B", ["C"]), ("C", ["A"])])
          [⟨"A", []⟩, ⟨"B", []⟩, ⟨"C", []⟩]) ↔
      ("A", "B") ∈ cellEdges
        [⟨"1", "standard.Rectangle", "A", "", "", false⟩,
          ⟨"2", "standard.Rectangle", "B", "", "", false⟩,
          ⟨"3", "standard.Rectangle", "C", "", "", false⟩,
          ⟨"4", "standard.Link", "", "1", "2", false⟩,
          ⟨"5", "standard.Link", "", "2", "3", false⟩,
          ⟨"6", "standard.Link", "", "3", "1", false⟩]) :=
  roundtrip_connectivity
    [⟨"1", "standard.Rectangle", "A", "", "", false⟩,
      ⟨"2", "standard.Rectangle", "B", "", "", false⟩,
      ⟨"3", "standard.Rectangle", "C", "", "", false⟩,
      ⟨"4", "standard.Link", "", "1", "2", false⟩,
      ⟨"5", "standard.Link", "", "2", "3", false⟩,
      ⟨"6", "standard.Link", "", "3", "1", false⟩]
    [⟨"A", []⟩, ⟨"B", []⟩, ⟨"C", []⟩]
    [("A", ["B"]), ("B", ["C"]), ("C", ["A"])] rfl
    (by decide) (by decide) (by decide) (by decide) (by decide) "A" "B"

end MoodyMapper
